import Mathlib

/-!
Verification development for the rsm repository: a shallow embedding of
the wire-message module of the raft automaton (src/raft/messages.rs)
together with a model of the fairness lock described in the design
document (the lock implementation itself lives outside the packaged
sources, so it is modelled from the specification).
-/

set_option maxRecDepth 4096

/-- Unsigned 8-bit machine integers, as used for automaton ids and the
envelope opcode. -/
abbrev U8 := Fin 256

/-- Unsigned 64-bit machine integers, as used for terms, indices, ages
and epoch ids. -/
abbrev U64 := Fin 18446744073709551616

/-- Model of a serde_json value as produced for the message set: numbers
here are the nonnegative integers produced for u8 and u64 fields, and
objects keep the field list in the order the derived serializer emits
them (the struct declaration order). -/
inductive Json where
  | num (n : Nat)
  | str (s : String)
  | bool (b : Bool)
  | arr (elems : List Json)
  | obj (fields : List (String × Json))
deriving Repr

/-- Keys of a JSON object, in emission order; empty for non-objects. -/
def Json.keys : Json → List String
  | .obj fields => fields.map Prod.fst
  | _ => []

/-- Outer wrapper holding the source and destination hosts as well as the
actual message payload plus its identifier, after src/raft/messages.rs
struct RAW. -/
structure RAW where
  code : U8
  src : String
  dst : String
  user : Json

/-- Log entry, after src/raft/messages.rs struct LogEntry: a term paired
with a blob whose Rust type is String (UTF-8 text). -/
structure LogEntry where
  term : U64
  blob : String
deriving DecidableEq, Repr

/-- Leader heartbeat message, after struct PING. -/
structure PING where
  id : U8
  term : U64
  commit : U64
deriving DecidableEq, Repr

/-- Log replication message, after struct REPLICATE. -/
structure REPLICATE where
  id : U8
  term : U64
  off : U64
  age : U64
  commit : U64
  append : List LogEntry
  rebase : Bool
deriving DecidableEq, Repr

/-- Follower acknowledgement, after struct ACK: it carries id, term and
ack, and nothing else. -/
structure ACK where
  id : U8
  term : U64
  ack : U64
deriving DecidableEq, Repr

/-- Replication rejection, after struct REBASE. -/
structure REBASE where
  id : U8
  term : U64
deriving DecidableEq, Repr

/-- Promotion signal, after struct UPGRADE. -/
structure UPGRADE where
  id : U8
  term : U64
deriving DecidableEq, Repr

/-- Pre-election liveness probe, after struct PROBE. -/
structure PROBE where
  id : U8
  term : U64
  head : U64
  age : U64
deriving DecidableEq, Repr

/-- Probe reply, after struct ADVERTISE. -/
structure ADVERTISE where
  id : U8
  term : U64
  head : U64
  age : U64
deriving DecidableEq, Repr

/-- Vote grant, after struct VOTE. -/
structure VOTE where
  id : U8
  term : U64
deriving DecidableEq, Repr

/-- Forwarded client submission, after struct APPEND. -/
structure APPEND where
  id : U8
  term : U64
  blob : String
deriving DecidableEq, Repr

/-- Opcode of PING, after the line declare!(0, PING). -/
def PING.CODE : U8 := ⟨0, by decide⟩

/-- Opcode of REPLICATE, after the line declare!(1, REPLICATE). -/
def REPLICATE.CODE : U8 := ⟨1, by decide⟩

/-- Opcode of ACK, after the line declare!(2, ACK). -/
def ACK.CODE : U8 := ⟨2, by decide⟩

/-- Opcode of REBASE, after the line declare!(3, REBASE). -/
def REBASE.CODE : U8 := ⟨3, by decide⟩

/-- Opcode of UPGRADE, after the line declare!(4, UPGRADE). -/
def UPGRADE.CODE : U8 := ⟨4, by decide⟩

/-- Opcode of PROBE, after the line declare!(5, PROBE). -/
def PROBE.CODE : U8 := ⟨5, by decide⟩

/-- Opcode of ADVERTISE, after the line declare!(6, ADVERTISE). -/
def ADVERTISE.CODE : U8 := ⟨6, by decide⟩

/-- Opcode of VOTE, after the line declare!(7, VOTE). -/
def VOTE.CODE : U8 := ⟨7, by decide⟩

/-- Opcode of APPEND, after the line declare!(8, APPEND). -/
def APPEND.CODE : U8 := ⟨8, by decide⟩

/-- The declared inner message kinds of the wire protocol: one
constructor per struct that receives a declare! line in
src/raft/messages.rs. -/
inductive MsgKind where
  | PING | REPLICATE | ACK | REBASE | UPGRADE | PROBE | ADVERTISE | VOTE | APPEND
deriving DecidableEq, Repr

/-- All declared message kinds, in declaration (opcode) order. -/
def MsgKind.all : List MsgKind :=
  [.PING, .REPLICATE, .ACK, .REBASE, .UPGRADE, .PROBE, .ADVERTISE, .VOTE, .APPEND]

/-- Opcode assigned to each kind by the declare! lines. -/
def CODE : MsgKind → U8
  | .PING => PING.CODE
  | .REPLICATE => REPLICATE.CODE
  | .ACK => ACK.CODE
  | .REBASE => REBASE.CODE
  | .UPGRADE => UPGRADE.CODE
  | .PROBE => PROBE.CODE
  | .ADVERTISE => ADVERTISE.CODE
  | .VOTE => VOTE.CODE
  | .APPEND => APPEND.CODE

/-- Sum of the declared inner message types, for quantifying over the
whole message set. -/
inductive Msg where
  | PING (m : PING)
  | REPLICATE (m : REPLICATE)
  | ACK (m : ACK)
  | REBASE (m : REBASE)
  | UPGRADE (m : UPGRADE)
  | PROBE (m : PROBE)
  | ADVERTISE (m : ADVERTISE)
  | VOTE (m : VOTE)
  | APPEND (m : APPEND)
deriving DecidableEq, Repr

/-- Kind of an inner message. -/
def Msg.kind : Msg → MsgKind
  | .PING _ => .PING
  | .REPLICATE _ => .REPLICATE
  | .ACK _ => .ACK
  | .REBASE _ => .REBASE
  | .UPGRADE _ => .UPGRADE
  | .PROBE _ => .PROBE
  | .ADVERTISE _ => .ADVERTISE
  | .VOTE _ => .VOTE
  | .APPEND _ => .APPEND

/-- Serialization of a log entry into a JSON value, following the derived
serde Serialize implementation: one object field per struct field, in
declaration order. -/
def logEntryToValue (e : LogEntry) : Json :=
  .obj [("term", .num e.term.val), ("blob", .str e.blob)]

/-- Serialization of an inner message into the envelope user value,
following the derived serde Serialize implementations of the nine
structs: one object field per struct field, in declaration order. -/
def toValue : Msg → Json
  | .PING m => .obj [("id", .num m.id.val), ("term", .num m.term.val),
      ("commit", .num m.commit.val)]
  | .REPLICATE m => .obj [("id", .num m.id.val), ("term", .num m.term.val),
      ("off", .num m.off.val), ("age", .num m.age.val),
      ("commit", .num m.commit.val),
      ("append", .arr (m.append.map logEntryToValue)),
      ("rebase", .bool m.rebase)]
  | .ACK m => .obj [("id", .num m.id.val), ("term", .num m.term.val),
      ("ack", .num m.ack.val)]
  | .REBASE m => .obj [("id", .num m.id.val), ("term", .num m.term.val)]
  | .UPGRADE m => .obj [("id", .num m.id.val), ("term", .num m.term.val)]
  | .PROBE m => .obj [("id", .num m.id.val), ("term", .num m.term.val),
      ("head", .num m.head.val), ("age", .num m.age.val)]
  | .ADVERTISE m => .obj [("id", .num m.id.val), ("term", .num m.term.val),
      ("head", .num m.head.val), ("age", .num m.age.val)]
  | .VOTE m => .obj [("id", .num m.id.val), ("term", .num m.term.val)]
  | .APPEND m => .obj [("id", .num m.id.val), ("term", .num m.term.val),
      ("blob", .str m.blob)]

/-- Envelope construction, after the to_raw method generated by the
declare! macro: the envelope carries the kind's opcode, the src and dst
arguments, and the serialized message as user. -/
def Msg.to_raw (m : Msg) (src dst : String) : RAW :=
  { code := CODE m.kind, src := src, dst := dst, user := toValue m }

/-- Command queue vocabulary of the automaton, after the enum Command in
src/raft/messages.rs. -/
inductive Command where
  | MESSAGE (raw : RAW)
  | STORE (blob : String)
  | TIMEOUT (id : U64)
  | HEARTBEAT

/-- Partial read of a JSON number, as the derived serde Deserialize does
for integer fields. -/
def num? : Json → Option Nat
  | .num n => some n
  | _ => none

/-- Partial read of a JSON string. -/
def str? : Json → Option String
  | .str s => some s
  | _ => none

/-- Partial read of a JSON boolean. -/
def bool? : Json → Option Bool
  | .bool b => some b
  | _ => none

/-- Partial read of a JSON array. -/
def arr? : Json → Option (List Json)
  | .arr elems => some elems
  | _ => none

/-- Range check turning a decoded number into a u8, as serde does when
deserializing into a u8 field. -/
def toU8? (n : Nat) : Option U8 :=
  if h : n < 256 then some ⟨n, h⟩ else none

/-- Range check turning a decoded number into a u64. -/
def toU64? (n : Nat) : Option U64 :=
  if h : n < 18446744073709551616 then some ⟨n, h⟩ else none

/-- Read of a u8 field value. -/
def u8? (j : Json) : Option U8 := (num? j).bind toU8?

/-- Read of a u64 field value. -/
def u64? (j : Json) : Option U64 := (num? j).bind toU64?

/-- Decoder for LogEntry on canonically encoded objects, following the
derived serde Deserialize implementation. -/
def decodeLogEntry : Json → Option LogEntry
  | .obj [("term", t), ("blob", b)] => do
    let term ← u64? t
    let blob ← str? b
    pure ⟨term, blob⟩
  | _ => none

/-- Decoder for a list of log entries. -/
def decodeEntries : List Json → Option (List LogEntry)
  | [] => some []
  | j :: js => do
    let e ← decodeLogEntry j
    let rest ← decodeEntries js
    pure (e :: rest)

/-- Decoder for PING on canonically encoded objects. -/
def decodePING : Json → Option PING
  | .obj [("id", i), ("term", t), ("commit", c)] => do
    let id ← u8? i
    let term ← u64? t
    let commit ← u64? c
    pure ⟨id, term, commit⟩
  | _ => none

/-- Decoder for REPLICATE on canonically encoded objects. -/
def decodeREPLICATE : Json → Option REPLICATE
  | .obj [("id", i), ("term", t), ("off", o), ("age", a), ("commit", c),
      ("append", ap), ("rebase", r)] => do
    let id ← u8? i
    let term ← u64? t
    let off ← u64? o
    let age ← u64? a
    let commit ← u64? c
    let elems ← arr? ap
    let append ← decodeEntries elems
    let rebase ← bool? r
    pure ⟨id, term, off, age, commit, append, rebase⟩
  | _ => none

/-- Decoder for ACK on canonically encoded objects. -/
def decodeACK : Json → Option ACK
  | .obj [("id", i), ("term", t), ("ack", a)] => do
    let id ← u8? i
    let term ← u64? t
    let ack ← u64? a
    pure ⟨id, term, ack⟩
  | _ => none

/-- Decoder for REBASE on canonically encoded objects. -/
def decodeREBASE : Json → Option REBASE
  | .obj [("id", i), ("term", t)] => do
    let id ← u8? i
    let term ← u64? t
    pure ⟨id, term⟩
  | _ => none

/-- Decoder for UPGRADE on canonically encoded objects. -/
def decodeUPGRADE : Json → Option UPGRADE
  | .obj [("id", i), ("term", t)] => do
    let id ← u8? i
    let term ← u64? t
    pure ⟨id, term⟩
  | _ => none

/-- Decoder for PROBE on canonically encoded objects. -/
def decodePROBE : Json → Option PROBE
  | .obj [("id", i), ("term", t), ("head", h), ("age", a)] => do
    let id ← u8? i
    let term ← u64? t
    let head ← u64? h
    let age ← u64? a
    pure ⟨id, term, head, age⟩
  | _ => none

/-- Decoder for ADVERTISE on canonically encoded objects. -/
def decodeADVERTISE : Json → Option ADVERTISE
  | .obj [("id", i), ("term", t), ("head", h), ("age", a)] => do
    let id ← u8? i
    let term ← u64? t
    let head ← u64? h
    let age ← u64? a
    pure ⟨id, term, head, age⟩
  | _ => none

/-- Decoder for VOTE on canonically encoded objects. -/
def decodeVOTE : Json → Option VOTE
  | .obj [("id", i), ("term", t)] => do
    let id ← u8? i
    let term ← u64? t
    pure ⟨id, term⟩
  | _ => none

/-- Decoder for APPEND on canonically encoded objects. -/
def decodeAPPEND : Json → Option APPEND
  | .obj [("id", i), ("term", t), ("blob", b)] => do
    let id ← u8? i
    let term ← u64? t
    let blob ← str? b
    pure ⟨id, term, blob⟩
  | _ => none

/-- Modelled from the spec: the receiving side dispatches the user value
on the envelope's code byte to pick the inner message decoder (the
protocol handler performing this dispatch is not among the packaged
sources; the per-kind decoders follow the derived serde Deserialize
implementations of src/raft/messages.rs). -/
def decodeUser (code : U8) (user : Json) : Option Msg :=
  match code.val with
  | 0 => (decodePING user).map .PING
  | 1 => (decodeREPLICATE user).map .REPLICATE
  | 2 => (decodeACK user).map .ACK
  | 3 => (decodeREBASE user).map .REBASE
  | 4 => (decodeUPGRADE user).map .UPGRADE
  | 5 => (decodePROBE user).map .PROBE
  | 6 => (decodeADVERTISE user).map .ADVERTISE
  | 7 => (decodeVOTE user).map .VOTE
  | 8 => (decodeAPPEND user).map .APPEND
  | _ => none

/-- Reflection of the Rust values handed to serde_json::to_value by the
message module: flat scalar fields, vectors, plain structs, and maps
(maps are included because they are the serializer's failure case, even
though no message struct contains one). -/
inductive RustVal where
  | u8 (n : U8)
  | u64 (n : U64)
  | str (s : String)
  | bool (b : Bool)
  | vec (elems : List RustVal)
  | strct (fields : List (String × RustVal))
  | map (entries : List (RustVal × RustVal))

mutual

/-- Model of serde_json::to_value: total on scalars, vectors and structs,
and failing on a map whose key does not serialize to a string, which is
the error case of the real serializer. -/
def serde_to_value : RustVal → Option Json
  | .u8 n => some (.num n.val)
  | .u64 n => some (.num n.val)
  | .str s => some (.str s)
  | .bool b => some (.bool b)
  | .vec elems => (serdeVec elems).map Json.arr
  | .strct fields => (serdeStruct fields).map Json.obj
  | .map entries => (serdeMap entries).map Json.obj

/-- Serialization of a vector of values. -/
def serdeVec : List RustVal → Option (List Json)
  | [] => some []
  | v :: vs => do
    let j ← serde_to_value v
    let js ← serdeVec vs
    pure (j :: js)

/-- Serialization of the fields of a struct. -/
def serdeStruct : List (String × RustVal) → Option (List (String × Json))
  | [] => some []
  | (k, v) :: fs => do
    let j ← serde_to_value v
    let js ← serdeStruct fs
    pure ((k, j) :: js)

/-- Serialization of the entries of a map: a key that is not a string
makes the whole serialization fail. -/
def serdeMap : List (RustVal × RustVal) → Option (List (String × Json))
  | [] => some []
  | (k, v) :: es => do
    match ← serde_to_value k with
    | .str s => do
      let j ← serde_to_value v
      let js ← serdeMap es
      pure ((s, j) :: js)
    | _ => none

end

/-- Reflection of a LogEntry as the Rust value serde sees. -/
def reflectLogEntry (e : LogEntry) : RustVal :=
  .strct [("term", .u64 e.term), ("blob", .str e.blob)]

/-- Reflection of an inner message as the Rust value serde sees: one
struct field per declared field, in declaration order. -/
def reflect : Msg → RustVal
  | .PING m => .strct [("id", .u8 m.id), ("term", .u64 m.term),
      ("commit", .u64 m.commit)]
  | .REPLICATE m => .strct [("id", .u8 m.id), ("term", .u64 m.term),
      ("off", .u64 m.off), ("age", .u64 m.age), ("commit", .u64 m.commit),
      ("append", .vec (m.append.map reflectLogEntry)),
      ("rebase", .bool m.rebase)]
  | .ACK m => .strct [("id", .u8 m.id), ("term", .u64 m.term),
      ("ack", .u64 m.ack)]
  | .REBASE m => .strct [("id", .u8 m.id), ("term", .u64 m.term)]
  | .UPGRADE m => .strct [("id", .u8 m.id), ("term", .u64 m.term)]
  | .PROBE m => .strct [("id", .u8 m.id), ("term", .u64 m.term),
      ("head", .u64 m.head), ("age", .u64 m.age)]
  | .ADVERTISE m => .strct [("id", .u8 m.id), ("term", .u64 m.term),
      ("head", .u64 m.head), ("age", .u64 m.age)]
  | .VOTE m => .strct [("id", .u8 m.id), ("term", .u64 m.term)]
  | .APPEND m => .strct [("id", .u8 m.id), ("term", .u64 m.term),
      ("blob", .str m.blob)]

/-- Fallible envelope construction, mirroring the body of to_raw before
its unwrap: serialize the message, then build the envelope from the
kind's opcode, the src and dst arguments and the obtained user value. -/
def to_raw? (m : Msg) (src dst : String) : Option RAW :=
  (serde_to_value (reflect m)).map fun u =>
    { code := CODE m.kind, src := src, dst := dst, user := u }

/-- Unicode scalar values: the code points a Rust char (and hence a Rust
String, the type of the blob fields) can hold. -/
def isScalar (c : Nat) : Prop :=
  c < 1114112 ∧ ¬(55296 ≤ c ∧ c ≤ 57343)

/-- UTF-8 encoding of one unicode scalar value, byte values as naturals. -/
def utf8EncodeChar (c : Nat) : List Nat :=
  if c < 128 then [c]
  else if c < 2048 then [192 + c / 64, 128 + c % 64]
  else if c < 65536 then [224 + c / 4096, 128 + (c / 64) % 64, 128 + c % 64]
  else [240 + c / 262144, 128 + (c / 4096) % 64, 128 + (c / 64) % 64, 128 + c % 64]

/-- UTF-8 encoding of a sequence of scalar values. -/
def utf8Encode : List Nat → List Nat
  | [] => []
  | c :: cs => utf8EncodeChar c ++ utf8Encode cs

/-- A byte sequence is admissible as a blob when it is the UTF-8 encoding
of some sequence of unicode scalar values, which is exactly the content a
Rust String (the declared type of LogEntry.blob and of the STORE payload)
can carry. -/
def blobAdmissible (bs : List Nat) : Prop :=
  ∃ cs : List Nat, (∀ c ∈ cs, isScalar c) ∧ utf8Encode cs = bs

/-- Byte sequence carried by a blob string: the UTF-8 encoding of its
characters. -/
def blobBytes (s : String) : List Nat :=
  utf8Encode (s.data.map Char.toNat)

/-- Queuing strategies of the fairness lock, after the Strategy trait
described in the design document. -/
inductive Strategy where
  | FIFO | LIFO
deriving DecidableEq, Repr

/-- Modelled from the spec: state of one lock instance, the holder (the
thread whose closure body is running inside the lock, if any) and the
wait queue of parked threads in arrival order (the lock implementation in
rsm::primitives::lock is not among the packaged sources; this model
follows section 4.1 of the design document). -/
structure LockState where
  holder : Option Nat
  queue : List Nat
deriving DecidableEq, Repr

/-- Calls made against a lock: a thread asking to run its closure inside
the lock, and the holder releasing it. -/
inductive LockEvent where
  | acquire (t : Nat)
  | release (t : Nat)
deriving DecidableEq, Repr

/-- Observable critical-section events: a thread's closure body starting
to run inside the lock, and it leaving the lock. -/
inductive CritEvent where
  | enter (t : Nat)
  | leave (t : Nat)
deriving DecidableEq, Repr

/-- Modelled from the spec: removal of one waiter per the strategy, FIFO
taking the first waiter and LIFO the most recent one. -/
def popLIFO : Nat → List Nat → Nat × List Nat
  | t, [] => (t, [])
  | t, u :: q =>
    let p := popLIFO u q
    (p.1, t :: p.2)

/-- Dequeue of one parked thread per the strategy. -/
def dequeue : Strategy → List Nat → Option (Nat × List Nat)
  | _, [] => none
  | .FIFO, t :: q => some (t, q)
  | .LIFO, t :: q => some (popLIFO t q)

/-- Modelled from the spec: one step of a lock instance. An acquire takes
the free lock immediately or parks the caller at the tail of the wait
queue; a release by the holder hands the lock to the dequeued waiter, or
frees it when nobody waits. A release by a non-holder is not a step. -/
def lockStep (st : Strategy) (s : LockState) : LockEvent → Option LockState
  | .acquire t =>
    match s.holder with
    | none => some ⟨some t, s.queue⟩
    | some u => some ⟨some u, s.queue ++ [t]⟩
  | .release t =>
    if s.holder = some t then
      match dequeue st s.queue with
      | none => some ⟨none, s.queue⟩
      | some (u, q) => some ⟨some u, q⟩
    else none

/-- Critical-section events observed at one step from state s: an acquire
of the free lock starts the caller's body at once; a release ends the
holder's body and, when a waiter is dequeued, starts that waiter's body. -/
def critOf (st : Strategy) (s : LockState) : LockEvent → List CritEvent
  | .acquire t =>
    match s.holder with
    | none => [.enter t]
    | some _ => []
  | .release t =>
    match dequeue st s.queue with
    | none => [.leave t]
    | some (u, _) => [.leave t, .enter u]

/-- Execution of a sequence of lock calls from a state, returning the
final state and the critical-section trace; none when some call is not a
legal step (a release by a non-holder). -/
def lockExec (st : Strategy) : LockState → List LockEvent → Option (LockState × List CritEvent)
  | s, [] => some (s, [])
  | s, e :: evs =>
    match lockStep st s e with
    | none => none
    | some s1 =>
      match lockExec st s1 evs with
      | none => none
      | some (sf, tr) => some (sf, critOf st s e ++ tr)

/-- Bracketing check of a critical-section trace, parameterized by the
thread currently inside the lock: enters and leaves must strictly
alternate and each leave must match the thread that entered. Its truth
means at most one closure body runs inside the lock at any instant. -/
def wb : Option Nat → List CritEvent → Bool
  | none, [] => true
  | none, .enter a :: tr => wb (some a) tr
  | none, .leave _ :: _ => false
  | some _, [] => true
  | some t, .leave b :: tr => t == b && wb none tr
  | some _, .enter _ :: _ => false

/-- Threads in the order their closure bodies entered the lock. -/
def enters (tr : List CritEvent) : List Nat :=
  tr.filterMap fun e =>
    match e with
    | .enter t => some t
    | .leave _ => none

/-- Threads in the order their acquire calls arrived at the lock. -/
def arrivals (evs : List LockEvent) : List Nat :=
  evs.filterMap fun e =>
    match e with
    | .acquire t => some t
    | .release _ => none

/-- Field table of section 4.4 of the specification, one row per declared
kind; this definition transcribes the spec's table (not the source), to
be compared with the encoder derived from the source structs. -/
def specTableFields : MsgKind → List String
  | .PING => ["id", "term", "commit"]
  | .REPLICATE => ["id", "term", "off", "age", "commit", "append", "rebase"]
  | .ACK => ["id", "term", "ack"]
  | .REBASE => ["id", "term"]
  | .UPGRADE => ["id", "term"]
  | .PROBE => ["id", "term", "head", "age"]
  | .ADVERTISE => ["id", "term", "head", "age"]
  | .VOTE => ["id", "term"]
  | .APPEND => ["id", "term", "blob"]

/-- Identifier field of an inner message; every kind carries one. -/
def Msg.idOf : Msg → U8
  | .PING m => m.id
  | .REPLICATE m => m.id
  | .ACK m => m.id
  | .REBASE m => m.id
  | .UPGRADE m => m.id
  | .PROBE m => m.id
  | .ADVERTISE m => m.id
  | .VOTE m => m.id
  | .APPEND m => m.id

/-- Term field of an inner message; every kind carries one. -/
def Msg.termOf : Msg → U64
  | .PING m => m.term
  | .REPLICATE m => m.term
  | .ACK m => m.term
  | .REBASE m => m.term
  | .UPGRADE m => m.term
  | .PROBE m => m.term
  | .ADVERTISE m => m.term
  | .VOTE m => m.term
  | .APPEND m => m.term


theorem toU8?_val (x : U8) : toU8? x.val = some x := by
  simp [toU8?, x.isLt]

theorem toU64?_val (x : U64) : toU64? x.val = some x := by
  simp [toU64?, x.isLt]

theorem u8?_num (x : U8) : u8? (Json.num x.val) = some x := by
  simp [u8?, num?, toU8?_val]

theorem u64?_num (x : U64) : u64? (Json.num x.val) = some x := by
  simp [u64?, num?, toU64?_val]

theorem decodeLogEntry_toValue (e : LogEntry) :
    decodeLogEntry (logEntryToValue e) = some e := by
  simp [logEntryToValue, decodeLogEntry, u64?_num, str?]

theorem decodeEntries_map (l : List LogEntry) :
    decodeEntries (l.map logEntryToValue) = some l := by
  induction l with
  | nil => rfl
  | cons e l ih => simp [decodeEntries, decodeLogEntry_toValue, ih]

theorem decode_toValue (m : Msg) : decodeUser (CODE m.kind) (toValue m) = some m := by
  cases m <;>
    simp [decodeUser, CODE, Msg.kind, PING.CODE, REPLICATE.CODE, ACK.CODE,
      REBASE.CODE, UPGRADE.CODE, PROBE.CODE, ADVERTISE.CODE, VOTE.CODE,
      APPEND.CODE, toValue, decodePING, decodeREPLICATE, decodeACK,
      decodeREBASE, decodeUPGRADE, decodePROBE, decodeADVERTISE, decodeVOTE,
      decodeAPPEND, u8?_num, u64?_num, str?, bool?, arr?, decodeEntries_map]

theorem serdeVec_map (l : List LogEntry) :
    serdeVec (l.map reflectLogEntry) = some (l.map logEntryToValue) := by
  induction l with
  | nil => rfl
  | cons e l ih =>
    simp [serdeVec, serde_to_value, serdeStruct, reflectLogEntry,
      logEntryToValue, ih]

theorem serde_reflect (m : Msg) : serde_to_value (reflect m) = some (toValue m) := by
  cases m <;>
    simp [reflect, serde_to_value, serdeStruct, toValue, serdeVec_map]

theorem utf8EncodeChar_ne_255 (c : Nat) (hc : c < 1114112) :
    255 ∉ utf8EncodeChar c := by
  unfold utf8EncodeChar
  split_ifs with h1 h2 h3 <;> simp <;> omega

theorem utf8Encode_ne_255 (cs : List Nat) (h : ∀ c ∈ cs, isScalar c) :
    255 ∉ utf8Encode cs := by
  induction cs with
  | nil => simp [utf8Encode]
  | cons c cs ih =>
    simp only [utf8Encode, List.mem_append]
    rintro (hm | hm)
    · exact utf8EncodeChar_ne_255 c (h c (List.mem_cons_self c cs)).1 hm
    · exact ih (fun x hx => h x (List.mem_cons_of_mem c hx)) hm

theorem dequeue_eq_nil {st : Strategy} {q : List Nat}
    (h : dequeue st q = none) : q = [] := by
  cases q with
  | nil => rfl
  | cons a q => cases st <;> simp [dequeue] at h

theorem dequeue_fifo_cons {q0 q : List Nat} {u : Nat}
    (h : dequeue Strategy.FIFO q0 = some (u, q)) : q0 = u :: q := by
  cases q0 with
  | nil => simp [dequeue] at h
  | cons a q1 =>
    simp [dequeue] at h
    rw [h.1, h.2]

theorem lockExec_wb (st : Strategy) (evs : List LockEvent) :
    ∀ (s sf : LockState) (tr : List CritEvent),
      lockExec st s evs = some (sf, tr) → wb s.holder tr = true := by
  induction evs with
  | nil =>
    intro s sf tr h
    simp [lockExec] at h
    rw [h.2]
    cases s.holder <;> rfl
  | cons e evs ih =>
    intro s sf tr h
    simp only [lockExec] at h
    cases heq : lockStep st s e with
    | none => rw [heq] at h; exact Option.noConfusion h
    | some s1 =>
      rw [heq] at h
      dsimp only at h
      cases hrec : lockExec st s1 evs with
      | none => rw [hrec] at h; dsimp only at h; exact Option.noConfusion h
      | some out =>
        obtain ⟨sf1, tr1⟩ := out
        rw [hrec] at h
        dsimp only at h
        simp only [Option.some.injEq, Prod.mk.injEq] at h
        obtain ⟨h1, h2⟩ := h
        rw [← h2]
        have hwb := ih s1 sf1 tr1 hrec
        cases e with
        | acquire t =>
          cases hh : s.holder with
          | none =>
            simp only [lockStep, hh, Option.some.injEq] at heq
            rw [← heq] at hwb
            simpa [critOf, hh, wb] using hwb
          | some u =>
            simp only [lockStep, hh, Option.some.injEq] at heq
            rw [← heq] at hwb
            simpa [critOf, hh, wb] using hwb
        | release t =>
          simp only [lockStep] at heq
          by_cases hht : s.holder = some t
          · rw [if_pos hht] at heq
            cases hdq : dequeue st s.queue with
            | none =>
              rw [hdq] at heq
              simp only [Option.some.injEq] at heq
              rw [← heq] at hwb
              rw [hht]
              simpa [critOf, hdq, wb] using hwb
            | some p =>
              obtain ⟨u, q⟩ := p
              rw [hdq] at heq
              simp only [Option.some.injEq] at heq
              rw [← heq] at hwb
              rw [hht]
              simpa [critOf, hdq, wb] using hwb
          · rw [if_neg hht] at heq
            exact Option.noConfusion heq

@[simp] theorem enters_nil : enters [] = [] := rfl

@[simp] theorem enters_enter (t : Nat) (tr : List CritEvent) :
    enters (CritEvent.enter t :: tr) = t :: enters tr := rfl

@[simp] theorem enters_leave (t : Nat) (tr : List CritEvent) :
    enters (CritEvent.leave t :: tr) = enters tr := rfl

@[simp] theorem arrivals_nil : arrivals [] = [] := rfl

@[simp] theorem arrivals_acquire (t : Nat) (evs : List LockEvent) :
    arrivals (LockEvent.acquire t :: evs) = t :: arrivals evs := rfl

@[simp] theorem arrivals_release (t : Nat) (evs : List LockEvent) :
    arrivals (LockEvent.release t :: evs) = arrivals evs := rfl

theorem lockExec_fifo (evs : List LockEvent) :
    ∀ (s sf : LockState) (tr : List CritEvent),
      lockExec Strategy.FIFO s evs = some (sf, tr) →
      (s.holder = none → s.queue = []) →
      enters tr ++ sf.queue = s.queue ++ arrivals evs ∧
      (sf.holder = none → sf.queue = []) := by
  induction evs with
  | nil =>
    intro s sf tr h hinv
    simp [lockExec] at h
    obtain ⟨rfl, rfl⟩ := h
    exact ⟨by simp, hinv⟩
  | cons e evs ih =>
    intro s sf tr h hinv
    simp only [lockExec] at h
    cases heq : lockStep Strategy.FIFO s e with
    | none => rw [heq] at h; dsimp only at h; exact Option.noConfusion h
    | some s1 =>
      rw [heq] at h
      dsimp only at h
      cases hrec : lockExec Strategy.FIFO s1 evs with
      | none => rw [hrec] at h; dsimp only at h; exact Option.noConfusion h
      | some out =>
        obtain ⟨sf1, tr1⟩ := out
        rw [hrec] at h
        dsimp only at h
        simp only [Option.some.injEq, Prod.mk.injEq] at h
        obtain ⟨rfl, h2⟩ := h
        rw [← h2]
        cases e with
        | acquire t =>
          cases hh : s.holder with
          | none =>
            have hq := hinv hh
            simp only [lockStep, hh, Option.some.injEq] at heq
            subst heq
            obtain ⟨hacc, hside⟩ :=
              ih _ sf1 tr1 hrec (by intro hco; simp at hco)
            refine ⟨?_, hside⟩
            simp only [hq] at hacc
            simp [critOf, hh, hq, hacc]
          | some u =>
            simp only [lockStep, hh, Option.some.injEq] at heq
            subst heq
            obtain ⟨hacc, hside⟩ :=
              ih _ sf1 tr1 hrec (by intro hco; simp at hco)
            refine ⟨?_, hside⟩
            simp [critOf, hh] at hacc ⊢
            simp [hacc]
        | release t =>
          simp only [lockStep] at heq
          by_cases hht : s.holder = some t
          · rw [if_pos hht] at heq
            cases hdq : dequeue Strategy.FIFO s.queue with
            | none =>
              have hqnil := dequeue_eq_nil hdq
              rw [hdq] at heq
              simp only [Option.some.injEq] at heq
              subst heq
              obtain ⟨hacc, hside⟩ :=
                ih _ sf1 tr1 hrec (by intro _; exact hqnil)
              refine ⟨?_, hside⟩
              simpa [critOf, hdq] using hacc
            | some p =>
              obtain ⟨u, q⟩ := p
              have hsq := dequeue_fifo_cons hdq
              rw [hdq] at heq
              simp only [Option.some.injEq] at heq
              subst heq
              obtain ⟨hacc, hside⟩ :=
                ih _ sf1 tr1 hrec (by intro hco; simp at hco)
              refine ⟨?_, hside⟩
              simp [critOf, dequeue, hsq, hacc]
          · rw [if_neg hht] at heq
            exact Option.noConfusion heq

/-- C1, counterexample: the wire protocol's inner message set does not
consist of eleven message kinds; the declare! lines of
src/raft/messages.rs introduce nine. -/
theorem inner_kinds_not_eleven : ¬ (MsgKind.all.length = 11) := by decide

/-- C1, amended: the wire protocol's inner message set, selected by the
envelope's code byte, consists of exactly nine message kinds (the list of
declared kinds is complete), and dispatch on the code byte ranges over
exactly those nine variants: a code designates a kind precisely when it
is at most 8. -/
theorem inner_kinds_nine :
    MsgKind.all.length = 9 ∧ (∀ k : MsgKind, k ∈ MsgKind.all) ∧
    (∀ c : U8, (∃ k ∈ MsgKind.all, CODE k = c) ↔ c.val ≤ 8) := by
  refine ⟨rfl, ?_, ?_⟩
  · intro k; cases k <;> simp [MsgKind.all]
  · decide

/-- C2, counterexample: the ACK message serializes to exactly the fields
id, term and ack; it carries no age field that could echo a REPLICATE's
age. -/
theorem ack_carries_no_age :
    Json.keys (toValue (Msg.ACK ⟨0, 0, 0⟩)) = ["id", "term", "ack"] ∧
    "age" ∉ Json.keys (toValue (Msg.ACK ⟨0, 0, 0⟩)) := by
  exact ⟨rfl, by decide⟩

/-- C2, amended: the ACK message a follower sends in reply to REPLICATE
carries exactly id, term and the highest accepted index ack, and no age
field; any age matching the leader performs cannot read an age from the
ACK itself. -/
theorem ack_fields_exact :
    ∀ m : ACK, Json.keys (toValue (Msg.ACK m)) = ["id", "term", "ack"] := by
  intro m; rfl

/-- C3: for every inner message and all src and dst strings, to_raw
returns an envelope whose code is the kind's declared opcode, whose src
and dst are the arguments passed, and whose user field is the
serialization of the message; the opcodes are the table values 0 through
8 in declaration order. -/
theorem to_raw_envelope (m : Msg) (src dst : String) :
    (m.to_raw src dst).code = CODE m.kind ∧ (m.to_raw src dst).src = src ∧
    (m.to_raw src dst).dst = dst ∧ (m.to_raw src dst).user = toValue m ∧
    (CODE .PING).val = 0 ∧ (CODE .REPLICATE).val = 1 ∧ (CODE .ACK).val = 2 ∧
    (CODE .REBASE).val = 3 ∧ (CODE .UPGRADE).val = 4 ∧ (CODE .PROBE).val = 5 ∧
    (CODE .ADVERTISE).val = 6 ∧ (CODE .VOTE).val = 7 ∧ (CODE .APPEND).val = 8 :=
  ⟨rfl, rfl, rfl, rfl, rfl, rfl, rfl, rfl, rfl, rfl, rfl, rfl, rfl⟩

/-- C4: each message kind serializes exactly the semantic fields the
specification's table assigns it, in particular REPLICATE the seven
fields id, term, off, age, commit, append, rebase and PROBE and ADVERTISE
the four fields id, term, head, age; and every message's id is an 8-bit
number and its term a 64-bit number. -/
theorem fields_match_table :
    (∀ m : Msg, Json.keys (toValue m) = specTableFields m.kind) ∧
    (∀ m : Msg, (Msg.idOf m).val < 256 ∧
      (Msg.termOf m).val < 18446744073709551616) := by
  constructor
  · intro m; cases m <;> rfl
  · intro m; exact ⟨(Msg.idOf m).isLt, (Msg.termOf m).isLt⟩

/-- C5, counterexample: not every byte sequence is admissible as a blob:
the single byte 255 is not the UTF-8 encoding of any sequence of unicode
scalar values, so no value of the blob type (a Rust String) carries it. -/
theorem blob_not_arbitrary_bytes : ¬ blobAdmissible [255] := by
  rintro ⟨cs, hs, he⟩
  have hm : 255 ∈ utf8Encode cs := by rw [he]; exact List.mem_singleton.mpr rfl
  exact utf8Encode_ne_255 cs hs hm

/-- C5, amended: a log entry is a pair of a u64 term and a blob whose type
is a UTF-8 string (Rust String, also the payload type client submission
accepts), so the byte content of every blob is an admissible (valid
UTF-8) byte sequence; byte sequences outside UTF-8 are not blobs. -/
theorem blob_bytes_admissible : ∀ e : LogEntry, blobAdmissible (blobBytes e.blob) := by
  intro e
  refine ⟨e.blob.data.map Char.toNat, ?_, rfl⟩
  intro c hc
  simp only [List.mem_map] at hc
  obtain ⟨ch, _, rfl⟩ := hc
  have hv := ch.valid
  simp only [UInt32.isValidChar, Nat.isValidChar] at hv
  simp only [isScalar, Char.toNat]
  rcases hv with h | h <;> omega

/-- C6: the automaton's command queue vocabulary is exactly the four
commands MESSAGE of an envelope, STORE of a blob, TIMEOUT of a numeric
(u64) epoch id, and HEARTBEAT. -/
theorem command_vocabulary (c : Command) :
    (∃ raw, c = Command.MESSAGE raw) ∨ (∃ blob, c = Command.STORE blob) ∨
    (∃ id : U64, c = Command.TIMEOUT id) ∨ c = Command.HEARTBEAT := by
  cases c with
  | MESSAGE r => exact Or.inl ⟨r, rfl⟩
  | STORE b => exact Or.inr (Or.inl ⟨b, rfl⟩)
  | TIMEOUT i => exact Or.inr (Or.inr (Or.inl ⟨i, rfl⟩))
  | HEARTBEAT => exact Or.inr (Or.inr (Or.inr rfl))

/-- C7, counterexample: the serializer is not injective on the message
set: a REBASE and an UPGRADE with the same id and term are distinct
messages with identical user-object encodings. -/
theorem user_value_collision :
    Msg.REBASE ⟨0, 1⟩ ≠ Msg.UPGRADE ⟨0, 1⟩ ∧
    toValue (Msg.REBASE ⟨0, 1⟩) = toValue (Msg.UPGRADE ⟨0, 1⟩) :=
  ⟨by simp, rfl⟩

/-- C7, amended: serializing any inner message into the envelope's user
object and decoding it back under the message's own code byte yields
exactly the message, and the full envelope (code byte plus user object)
is injective: two messages with the same envelope for the same src and
dst are equal; the user object alone does not separate kinds. -/
theorem envelope_serializer_bijective (m m1 : Msg) (src dst : String)
    (h : m.to_raw src dst = m1.to_raw src dst) :
    m = m1 ∧ decodeUser (CODE m.kind) (toValue m) = some m := by
  refine ⟨?_, decode_toValue m⟩
  have hcode : CODE m.kind = CODE m1.kind := congrArg RAW.code h
  have huser : toValue m = toValue m1 := congrArg RAW.user h
  have hsome : some m = some m1 := by
    rw [← decode_toValue m, ← decode_toValue m1, hcode, huser]
  exact Option.some.inj hsome

/-- C7 witness: the round trip and envelope injectivity evaluated at a
concrete VOTE message. -/
theorem envelope_serializer_bijective_witness :
    Msg.VOTE ⟨3, 7⟩ = Msg.VOTE ⟨3, 7⟩ ∧
    decodeUser (CODE (Msg.VOTE ⟨3, 7⟩).kind) (toValue (Msg.VOTE ⟨3, 7⟩)) =
      some (Msg.VOTE ⟨3, 7⟩) :=
  envelope_serializer_bijective (Msg.VOTE ⟨3, 7⟩) (Msg.VOTE ⟨3, 7⟩) "n1" "n2" rfl

/-- C9: serialization succeeds for every value of each declared message
type, so the fallible envelope construction always returns the envelope
and the unwrap inside to_raw never panics, for all src and dst. -/
theorem to_raw_never_fails (m : Msg) (src dst : String) :
    to_raw? m src dst = some (m.to_raw src dst) := by
  simp [to_raw?, serde_reflect, Msg.to_raw]

/-- C10: the opcodes assigned by the declare! lines are pairwise
distinct, taking exactly the values 0 through 8 in declaration order, so
a code byte identifies at most one inner message kind. -/
theorem opcodes_pairwise_distinct :
    (MsgKind.all.map CODE).Nodup ∧
    MsgKind.all.map CODE = [0, 1, 2, 3, 4, 5, 6, 7, 8] ∧
    (∀ c : U8, (MsgKind.all.filter fun k => decide (CODE k = c)).length ≤ 1) := by
  decide

/-- C8: for every lock instance (either strategy) and every legal
execution of lock calls from the initial free lock, the observed
critical-section trace is strictly bracketed — at most one closure body
runs inside the lock at any instant — and under the FIFO strategy the
bodies enter the lock in exactly the order the calls arrived: the enter
order extended by the still-parked waiters equals the arrival order, so a
call that enqueued before another runs before it. -/
theorem lock_exclusion_and_fifo_order (st : Strategy) (evs : List LockEvent)
    (sf : LockState) (tr : List CritEvent)
    (h : lockExec st ⟨none, []⟩ evs = some (sf, tr)) :
    wb none tr = true ∧
    (st = Strategy.FIFO → enters tr ++ sf.queue = arrivals evs) := by
  constructor
  · exact lockExec_wb st evs ⟨none, []⟩ sf tr h
  · intro hst
    subst hst
    have hfifo := lockExec_fifo evs ⟨none, []⟩ sf tr h (fun _ => rfl)
    simpa using hfifo.1

/-- C8 witness: the theorem evaluated on a concrete FIFO execution where
thread 2 parks while thread 1 holds the lock and runs after it. -/
theorem lock_exclusion_and_fifo_order_witness :
    wb none [CritEvent.enter 1, CritEvent.leave 1, CritEvent.enter 2,
      CritEvent.leave 2] = true ∧
    (Strategy.FIFO = Strategy.FIFO →
      enters [CritEvent.enter 1, CritEvent.leave 1, CritEvent.enter 2,
        CritEvent.leave 2] ++ (LockState.mk none []).queue =
      arrivals [LockEvent.acquire 1, LockEvent.acquire 2,
        LockEvent.release 1, LockEvent.release 2]) :=
  lock_exclusion_and_fifo_order Strategy.FIFO
    [LockEvent.acquire 1, LockEvent.acquire 2, LockEvent.release 1,
      LockEvent.release 2] ⟨none, []⟩
    [CritEvent.enter 1, CritEvent.leave 1, CritEvent.enter 2,
      CritEvent.leave 2] (by decide)
